import Mathlib

/-!
Verification development for the incisiveetl repository.

This file gives a shallow embedding, in Lean 4, of the parts of the
repository that the specification's testable properties talk about:

* `BasePipeline` (src/unnamed/part_001): `normalizeRow`, `validateRow`,
  `insertRow`, `processRows` — the pipeline execution engine, including its
  transaction/savepoint discipline.  Database effects are embedded as an
  explicit trace of issued operations (`DbOp`) together with an explicit
  table state; the behaviour of a row insert (success, or raising a
  database error with a message) is an oracle `ins : MappedRow → Option String`,
  and `postProcess` is an oracle `post : Option String` (`none` = resolves,
  `some msg` = rejects with message `msg`).
* `Orchestrator` (src/src/etl/processor.js): the step-6/7/8 effect sequence
  of `processFile`, the combined log row construction and `objectToCSV`.
* `S3Handler.listFiles` (src/unnamed/part_002) and the registry
  `getPipelineNames` (src/src/pipelines/index.js).
* the CSV field escaping of `objectToCSV` (src/src/utils/csv-helpers.js and
  processor.js), together with a spec-modelled standard CSV field reader.

JavaScript strings are embedded as `String` / `List Char`; JavaScript field
values relevant to validation are embedded as `JsVal` (null, undefined, or a
string).  Fallible JavaScript code is embedded with explicit outcome types.
-/

/-- JavaScript field values as inspected by `BasePipeline.validateRow`
(part_001 lines 172-178): `null`, `undefined`, or a string. -/
inductive JsVal where
  | null
  | undefined
  | str (s : String)
deriving DecidableEq, Repr

/-- A mapped record (the object returned by a pipeline's `mapRow`): an
association list from field name to value.  Reading an absent property of a
JavaScript object yields `undefined`. -/
abbrev MappedRow := List (String × JsVal)

/-- Property read `mappedRow[key]` on a JavaScript object: the stored value,
or `undefined` when the key is absent. -/
def getField (r : MappedRow) (k : String) : JsVal :=
  match r.find? (fun p => p.1 == k) with
  | some p => p.2
  | none => JsVal.undefined

/-- The emptiness test of `BasePipeline.validateRow` (part_001 lines 174-176):
a field is missing when its value is `null`, `undefined`, or `''`. -/
def isEmptyVal : JsVal → Bool
  | JsVal.null => true
  | JsVal.undefined => true
  | JsVal.str s => s == ""

/-- `BasePipeline.validateRow` (part_001 lines 172-178): the required field
names whose value in the mapped row is null, undefined or empty. -/
def validateRow (required : List String) (r : MappedRow) : List String :=
  required.filter (fun k => isEmptyVal (getField r k))

/-- JavaScript `a || b` on strings: `b` when `a` is falsy (the empty string),
else `a`.  Used for `result?.errorRow?.error_message || 'Insert failed'`
(part_001 line 278). -/
def jsOr (a b : String) : String :=
  if a == "" then b else a

/-- A pipeline definition, as consumed by `BasePipeline.processRows`.  The
type `α` is the type of raw parsed CSV rows.  `mapRow` embeds the composite
`this.mapRow(this.normalizeRow(row))` of part_001 lines 239-240 (both are
total functions of the row).  `requiredFields` and `shouldTruncate` embed the
corresponding getters. -/
structure Pipeline (α : Type) where
  requiredFields : List String
  shouldTruncate : Bool
  mapRow : α → MappedRow

/-- Database operations issued by the engine through `client.query` /
`client.release`, in issue order. -/
inductive DbOp where
  | beginTx
  | truncate
  | savepoint
  | insert (r : MappedRow)
  | releaseSavepoint
  | rollbackToSavepoint
  | commitTx
  | rollbackTx
  | releaseClient
deriving DecidableEq, Repr

/-- The error detail object pushed onto `errorRows` / `missingFieldErrors`
(part_001 lines 248-252 and 276-280): the original row spread together with a
`reason` string and a `missingFields` list. -/
structure RowErr (α : Type) where
  row : α
  reason : String
  missingFields : List String
deriving DecidableEq, Repr

/-- The mutable state of one `processRows` call: the counters and row lists
of part_001 lines 217-221, plus the current target-table contents inside the
open transaction and the trace of issued database operations. -/
structure EngineState (α : Type) where
  successCount : Nat
  errorCount : Nat
  missingFieldErrors : List (RowErr α)
  validRows : List α
  errorRows : List (RowErr α)
  table : List MappedRow
  trace : List DbOp
deriving DecidableEq, Repr

/-- Whether a row passes validation and its insert succeeds: the path of
part_001 lines 262-273.  `ins` is the database insert oracle: `none` means
the insert statement succeeds, `some msg` means it raises a database error
with message `msg`. -/
def isGoodRow (P : Pipeline α) (ins : MappedRow → Option String) (r : α) : Bool :=
  validateRow P.requiredFields (P.mapRow r) == [] && (ins (P.mapRow r)).isNone

/-- The error detail recorded for a row that is not good: for a validation
failure, the reason `Missing required fields: ...` with the missing list
(part_001 lines 248-252); for an insert failure with message `msg`, the
reason `msg || 'Insert failed'` with an empty missing list (part_001 lines
276-280).  The final branch is never reached for rows that are not good. -/
def rowErrDetail (P : Pipeline α) (ins : MappedRow → Option String) (r : α) : RowErr α :=
  let missing := validateRow P.requiredFields (P.mapRow r)
  if missing == [] then
    match ins (P.mapRow r) with
    | some msg => { row := r, reason := jsOr msg "Insert failed", missingFields := [] }
    | none => { row := r, reason := "", missingFields := [] }
  else
    { row := r
      reason := "Missing required fields: " ++ String.intercalate ", " missing
      missingFields := missing }

/-- One iteration of the row loop of `BasePipeline.processRows` (part_001
lines 235-307) on a single row.  A validation failure records the error and
issues no database operation; otherwise `insertRow` (part_001 lines 186-207)
issues SAVEPOINT, the INSERT, then RELEASE SAVEPOINT on success or ROLLBACK
TO SAVEPOINT on failure (which restores the table state, leaving the
enclosing transaction usable).  `normalizeRow`, `mapRow`, `validateRow` and
`buildInsertQuery` are embedded as total, so the catch at part_001 line 291
(unexpected exception) is not exercised. -/
def processRow (P : Pipeline α) (ins : MappedRow → Option String)
    (st : EngineState α) (r : α) : EngineState α :=
  let mapped := P.mapRow r
  let missing := validateRow P.requiredFields mapped
  if missing == [] then
    match ins mapped with
    | none =>
        { st with
          successCount := st.successCount + 1
          validRows := st.validRows ++ [r]
          table := st.table ++ [mapped]
          trace := st.trace ++ [DbOp.savepoint, DbOp.insert mapped, DbOp.releaseSavepoint] }
    | some msg =>
        let detail : RowErr α := { row := r, reason := jsOr msg "Insert failed", missingFields := [] }
        { st with
          errorCount := st.errorCount + 1
          errorRows := st.errorRows ++ [detail]
          missingFieldErrors := st.missingFieldErrors ++ [detail]
          trace := st.trace ++ [DbOp.savepoint, DbOp.insert mapped, DbOp.rollbackToSavepoint] }
  else
    let detail : RowErr α :=
      { row := r
        reason := "Missing required fields: " ++ String.intercalate ", " missing
        missingFields := missing }
    { st with
      errorCount := st.errorCount + 1
      missingFieldErrors := st.missingFieldErrors ++ [detail]
      errorRows := st.errorRows ++ [detail] }

/-- The inner row loop of `processRows` over a list of rows, in input order. -/
def processLoop (P : Pipeline α) (ins : MappedRow → Option String) :
    List α → EngineState α → EngineState α
  | [], st => st
  | r :: rs, st => processLoop P ins rs (processRow P ins st r)

/-- JavaScript `config.batchSize || 100` (part_001 line 36): a falsy (zero)
batch size falls back to 100, so the effective batch size is positive. -/
def jsBatchSize (bs : Nat) : Nat :=
  if bs = 0 then 100 else bs

/-- The batched outer loop of part_001 lines 232-318: rows are sliced into
consecutive batches of `jsBatchSize bs` rows and each batch is processed in
order (the batch boundary only emits a log line, part_001 lines 310-317). -/
def processBatches (P : Pipeline α) (ins : MappedRow → Option String)
    (bs : Nat) (rows : List α) (st : EngineState α) : EngineState α :=
  if h : rows.isEmpty then st
  else
    processBatches P ins bs (rows.drop (jsBatchSize bs))
      (processLoop P ins (rows.take (jsBatchSize bs)) st)
termination_by rows.length
decreasing_by
  simp only [List.length_drop, jsBatchSize]
  rcases rows with _ | ⟨a, l⟩
  · simp at h
  · split <;> simp <;> omega

/-- The result object returned by `processRows` on the commit path
(part_001 line 344). -/
structure ProcResult (α : Type) where
  successCount : Nat
  errorCount : Nat
  missingFieldErrors : List (RowErr α)
  validRows : List α
  errorRows : List (RowErr α)
deriving DecidableEq, Repr

/-- How a `processRows` call terminates: resolving with its result object, or
rejecting (the rethrow at part_001 line 339) with an error message. -/
inductive EngineOutcome (α : Type) where
  | ok (res : ProcResult α)
  | err (msg : String)
deriving DecidableEq, Repr

/-- The observable outcome of one `processRows` call: how it terminated, the
contents of the target table visible after the call, and the trace of
database operations issued. -/
structure RunOutcome (α : Type) where
  result : EngineOutcome α
  table : List MappedRow
  trace : List DbOp
deriving DecidableEq, Repr

/-- `BasePipeline.processRows` (part_001 lines 215-345).  `table0` is the
target-table contents before the call.  The call takes a client, BEGINs a
transaction, truncates the table first when `shouldTruncate` (part_001 lines
227-229), runs the batched row loop, then invokes `postProcess`; if the
latter resolves the transaction COMMITs and the accumulated table state
becomes visible, if it rejects the transaction ROLLBACKs (restoring
`table0`, including an undone truncate) and the error is rethrown.  The
client is released on both exit paths (the finally at part_001 line 341). -/
def processRows (P : Pipeline α) (ins : MappedRow → Option String)
    (post : Option String) (bs : Nat) (table0 : List MappedRow)
    (rows : List α) : RunOutcome α :=
  let st0 : EngineState α :=
    { successCount := 0, errorCount := 0, missingFieldErrors := []
      validRows := [], errorRows := []
      table := if P.shouldTruncate then [] else table0
      trace := DbOp.beginTx :: (if P.shouldTruncate then [DbOp.truncate] else []) }
  let st := processBatches P ins bs rows st0
  match post with
  | none =>
      { result := EngineOutcome.ok
          { successCount := st.successCount, errorCount := st.errorCount
            missingFieldErrors := st.missingFieldErrors
            validRows := st.validRows, errorRows := st.errorRows }
        table := st.table
        trace := st.trace ++ [DbOp.commitTx, DbOp.releaseClient] }
  | some msg =>
      { result := EngineOutcome.err msg
        table := table0
        trace := st.trace ++ [DbOp.rollbackTx, DbOp.releaseClient] }

/-- JavaScript `String.prototype.toLowerCase` restricted to the ASCII range,
per character: code points 65-90 (`A`-`Z`) map to 97-122 (`a`-`z`), all other
characters are unchanged.  The header keys exercised by the repository are
ASCII. -/
def jsToLowerChar (c : Char) : Char :=
  if 65 ≤ c.toNat ∧ c.toNat ≤ 90 then Char.ofNat (c.toNat + 32) else c

/-- The character class of the regex `[^a-z0-9]` complement: `a`-`z` (code
points 97-122) or `0`-`9` (code points 48-57). -/
def isLowerAlnum (c : Char) : Bool :=
  decide ((97 ≤ c.toNat ∧ c.toNat ≤ 122) ∨ (48 ≤ c.toNat ∧ c.toNat ≤ 57))

/-- White space characters removed by `String.prototype.trim`: space and the
ASCII control white space (tab through carriage return).  Unicode space
characters are not needed by any claim. -/
def isJsSpace (c : Char) : Bool :=
  decide (c.toNat = 32 ∨ (9 ≤ c.toNat ∧ c.toNat ≤ 13))

/-- JavaScript `String.prototype.trim` on a character list: drop white space
from both ends. -/
def jsTrim (l : List Char) : List Char :=
  ((l.dropWhile isJsSpace).reverse.dropWhile isJsSpace).reverse

/-- Header-key normalization, `key.toLowerCase().trim().replace(/[^a-z0-9]/g, '')`:
`BasePipeline.normalizeRow` (part_001 lines 158-161) and `normalizeCSVRow`
(src/src/utils/csv-helpers.js lines 11-14) apply the identical chain. -/
def normalizeKey (s : String) : String :=
  ⟨(jsTrim (s.data.map jsToLowerChar)).filter isLowerAlnum⟩

/-- A raw CSV row: an ordered association of header string to cell string. -/
abbrev SourceRow := List (String × String)

/-- JavaScript object property assignment `obj[k] = v`: overwrite the
existing entry for `k`, else append a new one. -/
def objInsert (obj : SourceRow) (k v : String) : SourceRow :=
  if obj.any (fun p => p.1 == k) then
    obj.map (fun p => if p.1 == k then (k, v) else p)
  else
    obj ++ [(k, v)]

/-- `BasePipeline.normalizeRow` (part_001 lines 155-165): rebuild the row
with each key normalized; colliding normalized keys overwrite (last wins). -/
def normalizeRow (row : SourceRow) : SourceRow :=
  row.foldl (fun acc p => objInsert acc (normalizeKey p.1) p.2) []

/-- The newline collapsing `String(v).replace(/\r?\n/g, ' ')` of the audit
CSV writers (csv-helpers.js line 81, processor.js line 367): each `\r\n`
pair or lone `\n` becomes one space; a `\r` not followed by `\n` stays. -/
def collapseNl : List Char → List Char
  | [] => []
  | [c] => if c = '\n' then [' '] else [c]
  | c :: d :: rest =>
      if c = '\r' ∧ d = '\n' then ' ' :: collapseNl rest
      else if c = '\n' then ' ' :: collapseNl (d :: rest)
      else c :: collapseNl (d :: rest)

/-- The quote doubling `.replace(/"/g, '""')` of the audit CSV writers
(csv-helpers.js line 82, processor.js line 367). -/
def escapeQuotes : List Char → List Char
  | [] => []
  | c :: rest => if c = '"' then '"' :: '"' :: escapeQuotes rest else c :: escapeQuotes rest

/-- One rendered audit-CSV field: the value with newlines collapsed and
quotes doubled, wrapped in double quotes — the template
`"${String(v ?? '').replace(/\r?\n/g, ' ').replace(/"/g, '""')}"` shared by
csv-helpers.js `objectToCSV` and `Orchestrator.objectToCSV`. -/
def csvFieldChars (v : List Char) : List Char :=
  '"' :: (escapeQuotes (collapseNl v) ++ ['"'])

/-- String form of `csvFieldChars`. -/
def csvField (v : String) : String :=
  ⟨csvFieldChars v.data⟩

/-- `objectToCSV` (csv-helpers.js lines 73-87, identically processor.js
lines 360-376) on rows given as association lists: empty input renders to no
lines; otherwise a header line joining the first row's keys with commas,
then one line per row joining the row's rendered field values with commas,
in row order. -/
def objectToCSVLines (data : List SourceRow) : List String :=
  match data with
  | [] => []
  | first :: _ =>
      String.intercalate "," (first.map (fun p => p.1)) ::
        data.map (fun row => String.intercalate "," (row.map (fun p => csvField p.2)))

/-- Modelled from the spec: the repository parses CSV with the external
`csv-parser` package, not code under src/.  This embeds a standard CSV
reader's handling of one double-quoted field (spec section 6: comma
delimited, double-quote quoting with internal double quotes doubled;
section 4.2b: standard CSV grammar): strip the surrounding quotes and
undouble internal `""` pairs. -/
def unescapeQuotes : List Char → List Char
  | [] => []
  | [c] => [c]
  | c :: d :: rest =>
      if c = '"' ∧ d = '"' then '"' :: unescapeQuotes rest
      else c :: unescapeQuotes (d :: rest)

/-- Modelled from the spec: a standard CSV reader applied to one rendered
field.  The field must start with `"` and end with `"`; the enclosed text
has `""` undoubled.  Returns `none` on a malformed field. -/
def readQuotedField (l : List Char) : Option (List Char) :=
  match l with
  | [] => none
  | c :: rest =>
      if c = '"' ∧ rest.getLast? = some '"' then some (unescapeQuotes rest.dropLast)
      else none

/-- A row of the combined log CSV of `Orchestrator.processFile` step 7
(processor.js lines 524-540): the original row plus the appended
`etl_status`, `etl_reason` and `missingFields` columns. -/
structure LogRow (α : Type) where
  row : α
  etlStatus : String
  etlReason : String
  missingFieldsCol : String
deriving DecidableEq, Repr

/-- The combined log row list `allRows` of processor.js line 543: the valid
rows each tagged `success` with empty reason, followed by the error rows
each tagged `error` with their reason and comma-joined missing fields.
JavaScript `reason || ''` is the identity on strings (`''` for `''`) and
`missingFields` is always an array on error rows, joined with `', '`. -/
def combinedLogRows (validRows : List α) (errorRows : List (RowErr α)) : List (LogRow α) :=
  validRows.map (fun r => { row := r, etlStatus := "success", etlReason := "", missingFieldsCol := "" }) ++
    errorRows.map (fun e =>
      { row := e.row, etlStatus := "error", etlReason := e.reason
        missingFieldsCol := String.intercalate ", " e.missingFields })

/-- The storage side effects of `Orchestrator.processFile` after the row
processing step. -/
inductive FileEffect where
  | uploadProcessed
  | uploadLog
  | deleteSource
deriving DecidableEq, Repr

/-- The report `processFile` resolves with, reduced to the fields the claims
need; `err msg` is the rethrow of processor.js line 590. -/
inductive FileOutcome (α : Type) where
  | skipped
  | done (res : ProcResult α)
  | err (msg : String)
deriving DecidableEq, Repr

/-- `Orchestrator.processFile` (processor.js lines 406-592) from the parse
step on: an empty row list returns a skipped result before any database or
upload work (lines 479-489); otherwise `processRows` runs, and only when it
resolves do step 6 (upload valid rows to processed/, only when there are
valid rows, lines 506-518), step 7 (build and upload the combined log CSV,
lines 520-550) and step 8 (delete the source file, lines 552-559) execute —
each protected by its own try/catch, embedded here as always succeeding.
When `processRows` rejects, the catch at line 582 rethrows the error and no
upload or delete effect occurs. -/
def processFileRun (P : Pipeline α) (ins : MappedRow → Option String)
    (post : Option String) (bs : Nat) (table0 : List MappedRow)
    (rows : List α) : List FileEffect × FileOutcome α :=
  if rows.isEmpty then
    ([], FileOutcome.skipped)
  else
    match (processRows P ins post bs table0 rows).result with
    | EngineOutcome.err msg => ([], FileOutcome.err msg)
    | EngineOutcome.ok res =>
        ((if res.validRows.isEmpty then [] else [FileEffect.uploadProcessed]) ++
          [FileEffect.uploadLog, FileEffect.deleteSource],
         FileOutcome.done res)

/-- JavaScript `key.startsWith(pat)`. -/
def jsStartsWith (s pat : String) : Bool :=
  pat.data.isPrefixOf s.data

/-- JavaScript `key.endsWith(pat)`. -/
def jsEndsWith (s pat : String) : Bool :=
  pat.data.isSuffixOf s.data

/-- JavaScript `s.replace(pat, '')` with a string pattern: remove the first
occurrence of `pat`, if any. -/
def removeFirstOcc (pat : List Char) : List Char → List Char
  | [] => []
  | c :: cs =>
      if pat.isPrefixOf (c :: cs) then (c :: cs).drop pat.length
      else c :: removeFirstOcc pat cs

/-- String form of `removeFirstOcc`. -/
def jsReplaceFirst (s pat : String) : String :=
  ⟨removeFirstOcc pat.data s.data⟩

/-- The object filter of `S3Handler.listFiles` (part_002 lines 165-171):
keep a key when it is not the source path itself, does not start with the
processed path, and ends with `.csv`.  Note that no logs path is consulted:
`listFiles(sourcePath, processedPath)` declares exactly two parameters. -/
def listFilesKeep (src processed : String) (key : String) : Bool :=
  key != src && !(jsStartsWith key processed) && jsEndsWith key ".csv"

/-- `S3Handler.listFiles` (part_002 lines 150-196) applied to the flattened
key listing (pagination concatenates pages in order, lines 155-181): the
kept keys with the first occurrence of the source path removed
(`obj.Key.replace(sourcePath, '')`, line 172). -/
def listFiles (src processed : String) (keys : List String) : List String :=
  (keys.filter (listFilesKeep src processed)).map (fun k => jsReplaceFirst k src)

/-- The call `this.s3Handler.listFiles(paths.sourcePath, paths.processedPath,
paths.logsPath)` of `Orchestrator.processPipeline` (processor.js line 645):
JavaScript passes the logs path as a third argument, which the two-parameter
`listFiles` silently ignores. -/
def processPipelineListFiles (src processed logs : String) (keys : List String) : List String :=
  listFiles src processed keys

/-- A value stored in the pipeline registry object (src/src/pipelines/index.js):
a registered pipeline class (line 55) or one of the utility function
properties assigned afterwards (lines 82, 89).  Both have JavaScript
`typeof` equal to `'function'`. -/
inductive RegVal where
  | cls (pipelineNm : String)
  | utilFn
deriving DecidableEq, Repr

/-- JavaScript `typeof pipelines[k] === 'function'` for a registry value:
classes and arrow functions are both functions. -/
def regValIsFunction : RegVal → Bool
  | RegVal.cls _ => true
  | RegVal.utilFn => true

/-- The registry object after the registration loop and the two utility
assignments (index.js lines 43-65, 82, 89), keyed in insertion order: the
registered pipeline classes by their static `pipelineName`, then
`getPipelineNames`, then `hasPipeline`. -/
def registryEntries (registered : List String) : List (String × RegVal) :=
  registered.map (fun n => (n, RegVal.cls n)) ++
    [("getPipelineNames", RegVal.utilFn), ("hasPipeline", RegVal.utilFn)]

/-- Registry property read `pipelines[k]`. -/
def registryGet (registered : List String) (k : String) : Option RegVal :=
  (registryEntries registered).find? (fun p => p.1 == k) |>.map (fun p => p.2)

/-- `pipelines.getPipelineNames` (index.js line 82):
`Object.keys(pipelines).filter(k => typeof pipelines[k] !== 'function' || k === 'getPipelineNames' ? false : true)` —
by JavaScript precedence the condition is
`(typeof pipelines[k] !== 'function' || k === 'getPipelineNames') ? false : true`,
so a key is kept exactly when its value is a function and the key is not
`'getPipelineNames'`. -/
def getPipelineNames (registered : List String) : List String :=
  (registryEntries registered).map (fun p => p.1) |>.filter (fun k =>
    if !((registryGet registered k).map regValIsFunction |>.getD false) || k == "getPipelineNames"
    then false else true)

/-- `OrdersPipeline.shouldTruncate` (part_005 lines 49-51). -/
def ordersShouldTruncate : Bool := true

/-- `OrdersPipeline.requiredFields` (part_005 lines 36-38). -/
def ordersRequiredFields : List String :=
  ["submissiondate", "casedate", "caseid", "productid", "quantity", "customerid"]

/-- The database operations `processRow` issues for one row: none on a
validation failure; otherwise the savepoint-wrapped insert of
`BasePipeline.insertRow`, released on success and rolled back to on
failure. -/
def rowTrace (P : Pipeline α) (ins : MappedRow → Option String) (r : α) : List DbOp :=
  let mapped := P.mapRow r
  if validateRow P.requiredFields mapped == [] then
    match ins mapped with
    | none => [DbOp.savepoint, DbOp.insert mapped, DbOp.releaseSavepoint]
    | some _ => [DbOp.savepoint, DbOp.insert mapped, DbOp.rollbackToSavepoint]
  else []

/-- The engine state at the start of the row loop, before any row, with
empty table and trace (used to state results that do not depend on the
initial table or the transaction preamble). -/
def stEmpty (α : Type) : EngineState α :=
  { successCount := 0, errorCount := 0, missingFieldErrors := []
    validRows := [], errorRows := [], table := [], trace := [] }

/-- The result object `processRows` resolves with when `postProcess`
succeeds, as a function of the pipeline, the insert oracle and the rows
(these fields do not depend on the batch size, the initial table contents or
the truncate flag). -/
def engineResult (P : Pipeline α) (ins : MappedRow → Option String)
    (rows : List α) : ProcResult α :=
  let st := processLoop P ins rows (stEmpty α)
  { successCount := st.successCount, errorCount := st.errorCount
    missingFieldErrors := st.missingFieldErrors
    validRows := st.validRows, errorRows := st.errorRows }

/-- Concrete one-required-field pipeline over raw rows that are plain
strings, used to evaluate the theorems at concrete inputs. -/
def wPipe : Pipeline String :=
  { requiredFields := ["caseid"], shouldTruncate := false
    mapRow := fun r => [("caseid", JsVal.str r)] }

/-- The concrete pipeline with `shouldTruncate` set. -/
def wPipeT : Pipeline String :=
  { wPipe with shouldTruncate := true }

/-- Concrete insert oracle: inserting the row whose `caseid` is `dup`
raises a database error with message `duplicate key value`; every other
insert succeeds. -/
def wIns : MappedRow → Option String :=
  fun m => if getField m "caseid" == JsVal.str "dup" then some "duplicate key value" else none

/-- A concrete field value containing a comma, a double quote and a
newline. -/
def c8Val : String := "a,\"b\"\nc"

/-- Processing a concatenation of row lists processes the first list, then
the second from the resulting state. -/
theorem processLoop_append (P : Pipeline α) (ins : MappedRow → Option String) :
    ∀ (l1 l2 : List α) (st : EngineState α),
      processLoop P ins (l1 ++ l2) st = processLoop P ins l2 (processLoop P ins l1 st) := by
  intro l1
  induction l1 with
  | nil => intro l2 st; rfl
  | cons r rs ih => intro l2 st; simp [processLoop, ih]

/-- The effective batch size is positive. -/
theorem jsBatchSize_pos (bs : Nat) : 0 < jsBatchSize bs := by
  unfold jsBatchSize
  split <;> omega

/-- The batched outer loop visits exactly the rows of the flat loop, in the
same order: batch boundaries do not change the per-row semantics. -/
theorem processBatches_eq_loop_aux (P : Pipeline α) (ins : MappedRow → Option String)
    (bs : Nat) : ∀ (n : Nat) (rows : List α), rows.length ≤ n → ∀ (st : EngineState α),
      processBatches P ins bs rows st = processLoop P ins rows st := by
  intro n
  induction n with
  | zero =>
      intro rows h st
      have hr : rows = [] := by
        cases rows with
        | nil => rfl
        | cons a l => simp at h
      subst hr
      rw [processBatches]
      simp [processLoop]
  | succ n ih =>
      intro rows h st
      rw [processBatches]
      by_cases he : rows.isEmpty
      · have hr : rows = [] := List.isEmpty_iff.mp he
        subst hr
        simp [processLoop]
      · simp only [he]
        rw [dif_neg (by simp [he])]
        rw [ih (rows.drop (jsBatchSize bs))]
        · rw [← processLoop_append]
          rw [List.take_append_drop]
        · have hk := jsBatchSize_pos bs
          have hlen : rows.length ≠ 0 := by
            intro hz
            exact he (by simpa [List.isEmpty_iff, List.length_eq_zero] using hz)
          simp only [List.length_drop]
          omega

/-- The batched loop equals the flat loop. -/
theorem processBatches_eq_loop (P : Pipeline α) (ins : MappedRow → Option String)
    (bs : Nat) (rows : List α) (st : EngineState α) :
    processBatches P ins bs rows st = processLoop P ins rows st :=
  processBatches_eq_loop_aux P ins bs rows.length rows le_rfl st

/-- Full characterization of the row loop: counts, row partitions, error
details, inserted table rows and issued database operations, as functions of
the input rows. -/
theorem processLoop_spec (P : Pipeline α) (ins : MappedRow → Option String) :
    ∀ (rows : List α) (st : EngineState α),
      processLoop P ins rows st =
        { successCount := st.successCount + (rows.filter (isGoodRow P ins)).length
          errorCount := st.errorCount + (rows.filter (fun r => !(isGoodRow P ins r))).length
          missingFieldErrors := st.missingFieldErrors ++
            (rows.filter (fun r => !(isGoodRow P ins r))).map (rowErrDetail P ins)
          validRows := st.validRows ++ rows.filter (isGoodRow P ins)
          errorRows := st.errorRows ++
            (rows.filter (fun r => !(isGoodRow P ins r))).map (rowErrDetail P ins)
          table := st.table ++ (rows.filter (isGoodRow P ins)).map P.mapRow
          trace := st.trace ++ rows.flatMap (rowTrace P ins) } := by
  intro rows
  induction rows with
  | nil => intro st; simp [processLoop]
  | cons r rs ih =>
      intro st
      rw [processLoop, ih]
      by_cases hv : validateRow P.requiredFields (P.mapRow r) == []
      · cases hins : ins (P.mapRow r) with
        | none =>
            have hg : isGoodRow P ins r = true := by
              simp [isGoodRow, hv, hins]
            simp [processRow, hv, hins, hg, rowTrace, List.filter_cons]
            omega
        | some msg =>
            have hg : isGoodRow P ins r = false := by
              simp [isGoodRow, hins]
            simp [processRow, hv, hins, hg, rowTrace, rowErrDetail, List.filter_cons,
              beq_iff_eq.mp hv]
            omega
      · have hg : isGoodRow P ins r = false := by
          simp [isGoodRow, hv]
        simp [processRow, hv, hg, rowTrace, rowErrDetail, List.filter_cons]
        omega

/-- The last element of a list extended by two elements. -/
theorem getLast?_append_two (l : List γ) (a b : γ) :
    (l ++ [a, b]).getLast? = some b := by
  rw [show l ++ [a, b] = (l ++ [a]) ++ [b] by simp]
  exact List.getLast?_concat _

/-- C2: if `postProcess` raises after the row loop, `processRows` rolls back
the entire file transaction (the table reverts to its pre-call contents, so
no inserts from the file persist regardless of earlier per-row successes),
the error propagates to the caller as a file-level failure, and the client
is released on that exit path as on every other (the final trace operation
is the client release for every `postProcess` outcome). -/
theorem c2_postprocess_rollback (P : Pipeline α) (ins : MappedRow → Option String)
    (bs : Nat) (table0 : List MappedRow) (rows : List α) (msg : String) :
    (processRows P ins (some msg) bs table0 rows).result = EngineOutcome.err msg ∧
    (processRows P ins (some msg) bs table0 rows).table = table0 ∧
    DbOp.rollbackTx ∈ (processRows P ins (some msg) bs table0 rows).trace ∧
    (∀ post : Option String,
      (processRows P ins post bs table0 rows).trace.getLast? = some DbOp.releaseClient) := by
  refine ⟨rfl, rfl, by simp [processRows], ?_⟩
  intro post
  cases post with
  | none => simp [processRows, getLast?_append_two]
  | some m => simp [processRows, getLast?_append_two]

/-- C3: a row whose mapped record is missing required fields is recorded as
Invalid with exactly the missing-field list and the reason
`Missing required fields: ...`; no database operation is issued for it and
the table is untouched (no insert is attempted); and the loop continues with
the remaining rows from the updated state. -/
theorem c3_validation_skips_insert (P : Pipeline α) (ins : MappedRow → Option String)
    (st : EngineState α) (r : α) (rest : List α)
    (h : validateRow P.requiredFields (P.mapRow r) ≠ []) :
    processRow P ins st r =
      { st with
        errorCount := st.errorCount + 1
        missingFieldErrors := st.missingFieldErrors ++
          [{ row := r
             reason := "Missing required fields: " ++
               String.intercalate ", " (validateRow P.requiredFields (P.mapRow r))
             missingFields := validateRow P.requiredFields (P.mapRow r) }]
        errorRows := st.errorRows ++
          [{ row := r
             reason := "Missing required fields: " ++
               String.intercalate ", " (validateRow P.requiredFields (P.mapRow r))
             missingFields := validateRow P.requiredFields (P.mapRow r) }] } ∧
    (processRow P ins st r).trace = st.trace ∧
    (processRow P ins st r).table = st.table ∧
    processLoop P ins (r :: rest) st = processLoop P ins rest (processRow P ins st r) := by
  have hb : (validateRow P.requiredFields (P.mapRow r) == []) = false := by
    simpa using h
  refine ⟨?_, ?_, ?_, rfl⟩
  · simp [processRow, hb]
  · simp [processRow, hb]
  · simp [processRow, hb]

/-- C3 witness: the concrete pipeline at the empty-string row, whose single
required field maps to the empty string. -/
theorem c3_witness :
    validateRow wPipe.requiredFields (wPipe.mapRow "") ≠ [] ∧
    (processRow wPipe wIns (stEmpty String) "" =
      { stEmpty String with
        errorCount := (stEmpty String).errorCount + 1
        missingFieldErrors := (stEmpty String).missingFieldErrors ++
          [{ row := ""
             reason := "Missing required fields: " ++
               String.intercalate ", " (validateRow wPipe.requiredFields (wPipe.mapRow ""))
             missingFields := validateRow wPipe.requiredFields (wPipe.mapRow "") }]
        errorRows := (stEmpty String).errorRows ++
          [{ row := ""
             reason := "Missing required fields: " ++
               String.intercalate ", " (validateRow wPipe.requiredFields (wPipe.mapRow ""))
             missingFields := validateRow wPipe.requiredFields (wPipe.mapRow "") }] } ∧
    (processRow wPipe wIns (stEmpty String) "").trace = (stEmpty String).trace ∧
    (processRow wPipe wIns (stEmpty String) "").table = (stEmpty String).table ∧
    processLoop wPipe wIns ("" :: ["1"]) (stEmpty String) =
      processLoop wPipe wIns ["1"] (processRow wPipe wIns (stEmpty String) "")) :=
  ⟨by decide, c3_validation_skips_insert wPipe wIns (stEmpty String) "" ["1"] (by decide)⟩

/-- The row loop never issues a TRUNCATE: only the preamble does. -/
theorem truncate_not_in_rowTraces (P : Pipeline α) (ins : MappedRow → Option String)
    (rows : List α) : DbOp.truncate ∉ rows.flatMap (rowTrace P ins) := by
  intro hmem
  rcases List.mem_flatMap.mp hmem with ⟨r, -, hr⟩
  simp only [rowTrace] at hr
  split at hr
  · split at hr <;> simp_all
  · simp_all

/-- C4: for a pipeline with `shouldTruncate` (the orders pipeline declares
it true), `processRows` issues exactly one TRUNCATE, immediately after
BEGIN and before any other operation of the transaction — in particular
before every insert — inside the same transaction, and a failure after the
truncate (a `postProcess` rejection) restores the table to its prior state
via the rollback. -/
theorem c4_truncate_before_inserts (P : Pipeline α) (ins : MappedRow → Option String)
    (post : Option String) (bs : Nat) (table0 : List MappedRow) (rows : List α)
    (ht : P.shouldTruncate = true) :
    ordersShouldTruncate = true ∧
    (processRows P ins post bs table0 rows).trace.take 2 = [DbOp.beginTx, DbOp.truncate] ∧
    (processRows P ins post bs table0 rows).trace.count DbOp.truncate = 1 ∧
    (∀ m : String, (processRows P ins (some m) bs table0 rows).table = table0) := by
  have hnot := truncate_not_in_rowTraces P ins rows
  refine ⟨rfl, ?_, ?_, fun m => rfl⟩
  · cases post <;> simp [processRows, processBatches_eq_loop, processLoop_spec, ht]
  · cases post <;>
      simp [processRows, processBatches_eq_loop, processLoop_spec, ht,
        List.count_append, List.count_cons, List.count_eq_zero.mpr hnot]

/-- C4 witness: the concrete truncating pipeline on one row, with successful
post-processing. -/
theorem c4_witness :
    wPipeT.shouldTruncate = true ∧
    (ordersShouldTruncate = true ∧
    (processRows wPipeT wIns none 100 [[("caseid", JsVal.str "old")]] ["1"]).trace.take 2 =
      [DbOp.beginTx, DbOp.truncate] ∧
    (processRows wPipeT wIns none 100 [[("caseid", JsVal.str "old")]] ["1"]).trace.count
      DbOp.truncate = 1 ∧
    (∀ m : String,
      (processRows wPipeT wIns (some m) 100 [[("caseid", JsVal.str "old")]] ["1"]).table =
        [[("caseid", JsVal.str "old")]])) :=
  ⟨by decide,
   c4_truncate_before_inserts wPipeT wIns none 100 [[("caseid", JsVal.str "old")]] ["1"]
     (by decide)⟩

/-- C1: when row `bad` is the only non-good row (it fails validation, or its
insert raises a database error) and `postProcess` succeeds, `processRows`
inserts all the other rows into the table in order, resolves with a result
recording exactly one Invalid row — `bad`, with its error detail — and all
other rows Valid, and the file transaction commits.  When the bad row failed
at the insert (validation passed and the oracle raised a nonempty message),
its recorded reason is exactly the database error message and the failed
insert was undone via ROLLBACK TO SAVEPOINT, leaving the enclosing
transaction usable (as witnessed by the suffix rows still being inserted and
the commit). -/
theorem c1_partial_failure_isolation (P : Pipeline α) (ins : MappedRow → Option String)
    (bs : Nat) (table0 : List MappedRow) (pre suf : List α) (bad : α)
    (hgood : ∀ r ∈ pre ++ suf, isGoodRow P ins r = true)
    (hbad : isGoodRow P ins bad = false) :
    (processRows P ins none bs table0 (pre ++ bad :: suf)).result =
      EngineOutcome.ok
        { successCount := (pre ++ suf).length, errorCount := 1
          missingFieldErrors := [rowErrDetail P ins bad]
          validRows := pre ++ suf
          errorRows := [rowErrDetail P ins bad] } ∧
    (processRows P ins none bs table0 (pre ++ bad :: suf)).table =
      (if P.shouldTruncate then [] else table0) ++ (pre ++ suf).map P.mapRow ∧
    DbOp.commitTx ∈ (processRows P ins none bs table0 (pre ++ bad :: suf)).trace ∧
    (∀ msg, validateRow P.requiredFields (P.mapRow bad) = [] →
      ins (P.mapRow bad) = some msg → msg ≠ "" →
      (rowErrDetail P ins bad).reason = msg ∧
      DbOp.rollbackToSavepoint ∈ (processRows P ins none bs table0 (pre ++ bad :: suf)).trace) := by
  have hpre : pre.filter (isGoodRow P ins) = pre :=
    List.filter_eq_self.mpr (fun a ha => hgood a (List.mem_append_left _ ha))
  have hsuf : suf.filter (isGoodRow P ins) = suf :=
    List.filter_eq_self.mpr (fun a ha => hgood a (List.mem_append_right _ ha))
  have hpre0 : pre.filter (fun r => !(isGoodRow P ins r)) = [] :=
    List.filter_eq_nil_iff.mpr (fun a ha => by simp [hgood a (List.mem_append_left _ ha)])
  have hsuf0 : suf.filter (fun r => !(isGoodRow P ins r)) = [] :=
    List.filter_eq_nil_iff.mpr (fun a ha => by simp [hgood a (List.mem_append_right _ ha)])
  have hfg : (pre ++ bad :: suf).filter (isGoodRow P ins) = pre ++ suf := by
    rw [List.filter_append, List.filter_cons]
    simp [hbad, hpre, hsuf]
  have hfb : (pre ++ bad :: suf).filter (fun r => !(isGoodRow P ins r)) = [bad] := by
    rw [List.filter_append, List.filter_cons]
    simp [hbad, hpre0, hsuf0]
  refine ⟨?_, ?_, ?_, ?_⟩
  · simp [processRows, processBatches_eq_loop, processLoop_spec, hfg, hfb]
  · simp [processRows, processBatches_eq_loop, processLoop_spec, hfg]
  · simp [processRows, processBatches_eq_loop, processLoop_spec]
  · intro msg hv hins hne
    have hbeq : (validateRow P.requiredFields (P.mapRow bad) == []) = true := by
      simp [hv]
    constructor
    · simp [rowErrDetail, hbeq, hv, hins, jsOr, hne]
    · simp [processRows, processBatches_eq_loop, processLoop_spec]
      exact Or.inr (Or.inl (by simp [rowTrace, hbeq, hins]))

/-- C1 witness: the concrete pipeline on rows `["1", "dup", "2"]`, where the
middle row's insert raises `duplicate key value` and the other rows are
valid and insertable. -/
theorem c1_witness :
    (∀ r ∈ (["1"] ++ ["2"] : List String), isGoodRow wPipe wIns r = true) ∧
    isGoodRow wPipe wIns "dup" = false ∧
    ((processRows wPipe wIns none 100 [] (["1"] ++ "dup" :: ["2"])).result =
      EngineOutcome.ok
        { successCount := ((["1"] ++ ["2"] : List String)).length, errorCount := 1
          missingFieldErrors := [rowErrDetail wPipe wIns "dup"]
          validRows := ["1"] ++ ["2"]
          errorRows := [rowErrDetail wPipe wIns "dup"] } ∧
    (processRows wPipe wIns none 100 [] (["1"] ++ "dup" :: ["2"])).table =
      (if wPipe.shouldTruncate then [] else []) ++ ((["1"] ++ ["2"] : List String)).map wPipe.mapRow ∧
    DbOp.commitTx ∈ (processRows wPipe wIns none 100 [] (["1"] ++ "dup" :: ["2"])).trace ∧
    (∀ msg, validateRow wPipe.requiredFields (wPipe.mapRow "dup") = [] →
      wIns (wPipe.mapRow "dup") = some msg → msg ≠ "" →
      (rowErrDetail wPipe wIns "dup").reason = msg ∧
      DbOp.rollbackToSavepoint ∈ (processRows wPipe wIns none 100 [] (["1"] ++ "dup" :: ["2"])).trace)) :=
  ⟨by decide, by decide,
   c1_partial_failure_isolation wPipe wIns 100 [] ["1"] ["2"] "dup" (by decide) (by decide)⟩

/-- The error detail always carries the original row. -/
theorem rowErrDetail_row (P : Pipeline α) (ins : MappedRow → Option String) (r : α) :
    (rowErrDetail P ins r).row = r := by
  simp only [rowErrDetail]
  split
  · split <;> rfl
  · rfl

/-- Mapping the error details back to their rows is the identity. -/
theorem map_rowErrDetail_row (P : Pipeline α) (ins : MappedRow → Option String)
    (l : List α) : (l.map (rowErrDetail P ins)).map (fun e => e.row) = l := by
  rw [List.map_map]
  simp [Function.comp_def, rowErrDetail_row]

/-- When `postProcess` succeeds, `processRows` resolves with the result
computed by the row loop alone (independent of the batch size, the initial
table and the truncate flag). -/
theorem processRows_ok (P : Pipeline α) (ins : MappedRow → Option String)
    (bs : Nat) (table0 : List MappedRow) (rows : List α) :
    (processRows P ins none bs table0 rows).result = EngineOutcome.ok (engineResult P ins rows) := by
  simp [processRows, processBatches_eq_loop, engineResult, stEmpty, processLoop_spec]

/-- C5 counterexample: for the concrete pipeline on the input rows
`["", "1"]` — an invalid row followed by a valid row — the combined log row
list produced by the orchestrator lists the valid row first, so the outcomes
are not in input order. -/
theorem c5_counterexample :
    (processRows wPipe wIns none 100 [] ["", "1"]).result =
      EngineOutcome.ok (engineResult wPipe wIns ["", "1"]) ∧
    (combinedLogRows (engineResult wPipe wIns ["", "1"]).validRows
        (engineResult wPipe wIns ["", "1"]).errorRows).map LogRow.row = ["1", ""] ∧
    (combinedLogRows (engineResult wPipe wIns ["", "1"]).validRows
        (engineResult wPipe wIns ["", "1"]).errorRows).map LogRow.row ≠ ["", "1"] :=
  ⟨processRows_ok wPipe wIns 100 [] ["", "1"], by decide, by decide⟩

/-- C5 (amended): the combined log row list contains one outcome row per
input row — its underlying rows are a permutation of the input rows — but
lists all valid rows first (in input order) followed by all invalid rows (in
input order), rather than in interleaved input order. -/
theorem c5_log_row_order (P : Pipeline α) (ins : MappedRow → Option String)
    (bs : Nat) (table0 : List MappedRow) (rows : List α) :
    (processRows P ins none bs table0 rows).result =
      EngineOutcome.ok (engineResult P ins rows) ∧
    (combinedLogRows (engineResult P ins rows).validRows
        (engineResult P ins rows).errorRows).map LogRow.row =
      rows.filter (isGoodRow P ins) ++ rows.filter (fun r => !(isGoodRow P ins r)) ∧
    ((combinedLogRows (engineResult P ins rows).validRows
        (engineResult P ins rows).errorRows).map LogRow.row).Perm rows := by
  have hmap : (combinedLogRows (engineResult P ins rows).validRows
      (engineResult P ins rows).errorRows).map LogRow.row =
      rows.filter (isGoodRow P ins) ++ rows.filter (fun r => !(isGoodRow P ins r)) := by
    simp [engineResult, stEmpty, processLoop_spec, combinedLogRows, List.map_map,
      Function.comp_def, rowErrDetail_row]
  refine ⟨processRows_ok P ins bs table0 rows, hmap, ?_⟩
  rw [hmap]
  exact List.filter_append_perm _ rows

/-- C6 counterexample: a nonempty file whose rows are all valid but whose
`postProcess` rejects (for example the orders merge procedure failing):
`processFile` rethrows the failure and performs no upload at all — in
particular no log CSV is uploaded for this failed file. -/
theorem c6_counterexample :
    processFileRun wPipe wIns (some "merge failed") 100 [] ["1"] =
      ([], FileOutcome.err "merge failed") ∧
    FileEffect.uploadLog ∉ (processFileRun wPipe wIns (some "merge failed") 100 [] ["1"]).1 := by
  have h : processFileRun wPipe wIns (some "merge failed") 100 [] ["1"] =
      ([], FileOutcome.err "merge failed") := by
    simp [processFileRun, processRows, processBatches_eq_loop]
  refine ⟨h, ?_⟩
  rw [h]
  simp

/-- C6 (amended): a log CSV upload happens exactly on the success path: for
every nonempty file whose `processRows` resolves (postProcess succeeds) the
upload-log effect is performed, regardless of per-row errors; when
`processRows` rejects, `processFile` performs no storage effect and the
error propagates as the file's failure. -/
theorem c6_log_upload_only_on_success (P : Pipeline α) (ins : MappedRow → Option String)
    (bs : Nat) (table0 : List MappedRow) (rows : List α) (hne : rows ≠ []) :
    FileEffect.uploadLog ∈ (processFileRun P ins none bs table0 rows).1 ∧
    (∀ msg, processFileRun P ins (some msg) bs table0 rows = ([], FileOutcome.err msg)) := by
  have hE : rows.isEmpty = false := by
    cases rows with
    | nil => exact absurd rfl hne
    | cons a l => rfl
  constructor
  · simp [processFileRun, hE, processRows_ok]
  · intro msg
    simp [processFileRun, hE, processRows]

/-- C6 witness: the amended statement at a concrete nonempty input. -/
theorem c6_witness :
    (["1"] : List String) ≠ [] ∧
    (FileEffect.uploadLog ∈ (processFileRun wPipe wIns none 100 [] ["1"]).1 ∧
    (∀ msg, processFileRun wPipe wIns (some msg) 100 [] ["1"] =
      ([], FileOutcome.err msg))) :=
  ⟨by decide, c6_log_upload_only_on_success wPipe wIns 100 [] ["1"] (by decide)⟩

/-- C7: the candidate listing excludes the source key itself, everything
under processed/, and non-CSV keys — but it does not exclude keys under the
pipeline's logs/ sub-location: a log CSV under logs/ is returned as a
candidate file.  The logs path passed as third argument by
`Orchestrator.processPipeline` is ignored by the two-parameter
`S3Handler.listFiles`. -/
theorem c7_logs_not_excluded :
    processPipelineListFiles "data/" "data/processed/" "data/logs/"
        ["data/", "data/a.csv", "data/processed/2025_a.csv",
         "data/logs/a_log_2025.csv", "data/readme.txt"] =
      ["a.csv", "logs/a_log_2025.csv"] ∧
    "logs/a_log_2025.csv" ∈
      processPipelineListFiles "data/" "data/processed/" "data/logs/"
        ["data/", "data/a.csv", "data/processed/2025_a.csv",
         "data/logs/a_log_2025.csv", "data/readme.txt"] :=
  ⟨by decide, by decide⟩

/-- Quote escaping produces the empty list only from the empty list. -/
theorem escapeQuotes_eq_nil (l : List Char) : escapeQuotes l = [] ↔ l = [] := by
  cases l with
  | nil => simp [escapeQuotes]
  | cons c t =>
      simp only [escapeQuotes]
      split <;> simp

/-- Undoubling quotes is a left inverse of doubling them. -/
theorem unescapeQuotes_escapeQuotes : ∀ l : List Char, unescapeQuotes (escapeQuotes l) = l := by
  intro l
  induction l with
  | nil => rfl
  | cons c t ih =>
      by_cases hc : c = '"'
      · subst hc
        rw [show escapeQuotes ('"' :: t) = '"' :: '"' :: escapeQuotes t from by
          simp [escapeQuotes]]
        rw [show unescapeQuotes ('"' :: '"' :: escapeQuotes t) =
            '"' :: unescapeQuotes (escapeQuotes t) from by simp [unescapeQuotes]]
        rw [ih]
      · rw [show escapeQuotes (c :: t) = c :: escapeQuotes t from by
          simp [escapeQuotes, hc]]
        cases ht : escapeQuotes t with
        | nil =>
            have h0 : t = [] := (escapeQuotes_eq_nil t).mp ht
            subst h0
            simp [escapeQuotes, unescapeQuotes]
        | cons e rest =>
            rw [show unescapeQuotes (c :: e :: rest) = c :: unescapeQuotes (e :: rest) from by
              simp [unescapeQuotes, hc]]
            rw [← ht, ih]

/-- A value without a line feed is unchanged by newline collapsing (a
carriage return not followed by a line feed is not matched by the regex). -/
theorem collapseNl_eq_self : ∀ v : List Char, '\n' ∉ v → collapseNl v = v := by
  intro v
  induction v with
  | nil => intro h; rfl
  | cons c t ih =>
      intro h
      have hc : c ≠ '\n' := fun e => h (by simp [e])
      have ht : '\n' ∉ t := fun m => h (by simp [m])
      cases t with
      | nil => simp [collapseNl, hc]
      | cons d t' =>
          have hd : d ≠ '\n' := fun e => ht (by simp [e])
          rw [show collapseNl (c :: d :: t') = c :: collapseNl (d :: t') from by
            simp [collapseNl, hc, hd]]
          rw [ih ht]

/-- C8 counterexample: for the concrete value `a,"b"\nc` — containing a
comma, a double quote and a newline — rendering it with the audit-CSV field
writer and re-parsing with the standard reader yields `a,"b" c`, not the
original: the embedded newline was collapsed to a space. -/
theorem c8_counterexample :
    (',' ∈ c8Val.data ∧ '"' ∈ c8Val.data ∧ '\n' ∈ c8Val.data) ∧
    readQuotedField (csvField c8Val).data ≠ some c8Val.data ∧
    readQuotedField (csvField c8Val).data = some ("a,\"b\" c".data) :=
  ⟨by decide, by decide, by decide⟩

/-- C8 (amended): the audit-CSV field writer round-trips through a standard
CSV reader up to newline collapsing: re-parsing the rendered field yields
the original value with each newline (`\r\n` or `\n`) replaced by a single
space; in particular a value with no line feed — whatever commas and double
quotes it contains — round-trips unchanged. -/
theorem c8_escaping_roundtrip (v : List Char) :
    readQuotedField (csvFieldChars v) = some (collapseNl v) ∧
    ('\n' ∉ v → readQuotedField (csvFieldChars v) = some v) := by
  have h : readQuotedField (csvFieldChars v) = some (collapseNl v) := by
    simp only [csvFieldChars, readQuotedField]
    rw [if_pos ⟨trivial, List.getLast?_concat _⟩]
    rw [List.dropLast_concat]
    rw [unescapeQuotes_escapeQuotes]
  refine ⟨h, fun hn => ?_⟩
  rw [h, collapseNl_eq_self v hn]

/-- C8 witness: the amended statement at the concrete value `a,"b` —
containing a comma and a double quote but no newline — which round-trips
unchanged. -/
theorem c8_witness :
    (readQuotedField (csvFieldChars "a,\"b".data) = some (collapseNl "a,\"b".data) ∧
      ('\n' ∉ "a,\"b".data → readQuotedField (csvFieldChars "a,\"b".data) =
        some ("a,\"b".data))) ∧
    '\n' ∉ "a,\"b".data ∧
    readQuotedField (csvFieldChars "a,\"b".data) = some ("a,\"b".data) :=
  ⟨c8_escaping_roundtrip ("a,\"b".data), by decide,
   (c8_escaping_roundtrip ("a,\"b".data)).2 (by decide)⟩

/-- A lowercase-alphanumeric character is unchanged by the ASCII lowercase
map. -/
theorem jsToLowerChar_fix (c : Char) (h : isLowerAlnum c = true) : jsToLowerChar c = c := by
  simp only [isLowerAlnum, decide_eq_true_eq] at h
  rw [jsToLowerChar, if_neg (by omega)]

/-- A lowercase-alphanumeric character is not white space. -/
theorem isLowerAlnum_not_space (c : Char) (h : isLowerAlnum c = true) : isJsSpace c = false := by
  simp only [isLowerAlnum, decide_eq_true_eq] at h
  simp only [isJsSpace, decide_eq_false_iff_not]
  omega

/-- A map that fixes every element of a list is the identity on it. -/
theorem map_eq_self_of (f : γ → γ) : ∀ l : List γ, (∀ a ∈ l, f a = a) → l.map f = l := by
  intro l
  induction l with
  | nil => intro h; rfl
  | cons a t ih =>
      intro h
      simp only [List.map_cons]
      rw [h a (by simp), ih (fun b hb => h b (by simp [hb]))]

/-- Dropping by a predicate that fails on every element is the identity. -/
theorem dropWhile_eq_self_of (p : γ → Bool) (l : List γ)
    (h : ∀ a ∈ l, p a = false) : l.dropWhile p = l := by
  cases l with
  | nil => rfl
  | cons a t => simp [List.dropWhile_cons, h a (by simp)]

/-- Trimming a list without white space characters is the identity. -/
theorem jsTrim_eq_self_of (l : List Char) (h : ∀ a ∈ l, isJsSpace a = false) :
    jsTrim l = l := by
  unfold jsTrim
  rw [dropWhile_eq_self_of _ l h]
  rw [dropWhile_eq_self_of _ l.reverse (fun a ha => h a (List.mem_reverse.mp ha))]
  exact List.reverse_reverse l

/-- C9: header-key normalization is deterministic (it is a pure function of
the raw header) and idempotent — normalizing twice equals normalizing once —
and on the spec's concrete headers, `Lab Product ID` normalizes to
`labproductid` and `CaseId` to `caseid`.  The same key transform is used by
`BasePipeline.normalizeRow` and `normalizeCSVRow`. -/
theorem c9_normalize_idempotent :
    (∀ s : String, normalizeKey (normalizeKey s) = normalizeKey s) ∧
    normalizeKey "Lab Product ID" = "labproductid" ∧
    normalizeKey "CaseId" = "caseid" := by
  refine ⟨?_, by decide, by decide⟩
  intro s
  rw [show normalizeKey s = ⟨(jsTrim (s.data.map jsToLowerChar)).filter isLowerAlnum⟩ from rfl]
  have hmem : ∀ c ∈ (jsTrim (s.data.map jsToLowerChar)).filter isLowerAlnum,
      isLowerAlnum c = true :=
    fun c hc => (List.mem_filter.mp hc).2
  rw [show normalizeKey ⟨(jsTrim (s.data.map jsToLowerChar)).filter isLowerAlnum⟩ =
      ⟨(jsTrim (((jsTrim (s.data.map jsToLowerChar)).filter isLowerAlnum).map
        jsToLowerChar)).filter isLowerAlnum⟩ from rfl]
  rw [map_eq_self_of _ _ (fun c hc => jsToLowerChar_fix c (hmem c hc))]
  rw [jsTrim_eq_self_of _ (fun c hc => isLowerAlnum_not_space c (hmem c hc))]
  rw [List.filter_eq_self.mpr hmem]

/-- C10: `pipelines.getPipelineNames()` does not return exactly the
registered pipeline names: its filter keeps every function-valued key other
than `getPipelineNames` itself, and the `hasPipeline` utility function is
assigned onto the registry object, so the returned list is the registered
names followed by the spurious entry `hasPipeline`. -/
theorem c10_extra_registry_entry :
    getPipelineNames ["dental-groups", "lab-product-mapping"] =
      ["dental-groups", "lab-product-mapping", "hasPipeline"] ∧
    "hasPipeline" ∉ ["dental-groups", "lab-product-mapping"] :=
  ⟨by decide, by decide⟩
